import Mathlib

/-!
Verification of `src/lib/dmprdpg/dmpsbm.py` (dynamic multiplex SBM pipeline).

The Python class `dmpsbm` is shallowly embedded as follows.

* Matrices (numpy 2-D arrays, and Python lists of row lists) become
  `Mat := List (List ℚ)`, a list of rows.  `np.concatenate (axis=0)` is
  `concatRows` (flattening), `np.concatenate (axis=1)` is `concatCols`
  (row-wise append), `@` is `matMul`, and `sum(sum((X - Y)**2))` is
  `sumsqDiff`.
* The constructor's dynamic type validation (lines 11-24) is embedded at the
  level of Python values: `PyVal` models the Python objects the checks
  discriminate on (`isinstance(_, int/list/tuple/dict)`, `len`), and
  `dmpsbm_init` mirrors the four `raise ValueError` checks in source order,
  returning `Except String PyModel` (an error means no object is produced,
  matching a Python exception escaping `__init__`).
* The pipeline methods (`sample`, `get_centroids`, `get_rotation`, `rotate`,
  `calculate_error`, `calculate_variance`, `get_centroids_theo`) act on a
  typed state `ModelState` (the object after a valid construction; the
  probability dictionary is a total map, so the `KeyError` path for a missing
  `(layer, timestep)` key is outside the model).  A Python `None` field is an
  `Option` that is `none`; a method that would raise on a `None` (e.g.
  `np.concatenate(None)`, slicing `None`) returns `Except.error`.
* The external collaborators are parameters: `gen` stands for
  `helpers.generate_adjacency_matrix`, `emb` for `helpers.get_embedding`, and
  `op` for `scipy.linalg.orthogonal_procrustes` (third-party; its documented
  contract — it returns an orthogonal d×d matrix — appears as a hypothesis
  where a theorem needs it).  `helpers.generate_group_labels` is needed
  computationally by `get_centroids` and is modelled from the spec, see below.
-/

/-- A Python run-time value, as far as the constructor's `isinstance` /
`len` checks discriminate: integers, floats, strings, tuples, lists,
dicts (association lists in insertion order) and `None`. -/
inductive PyVal where
  | int (n : ℤ)
  | float (q : ℚ)
  | str (s : String)
  | tuple (xs : List PyVal)
  | list (xs : List PyVal)
  | dict (kvs : List (PyVal × PyVal))
  | none

namespace PyVal

/-- `isinstance(v, int)`. -/
def isInt : PyVal → Bool
  | .int _ => true
  | _ => false

/-- `isinstance(v, tuple) and len(v) == 2`. -/
def isTuple2 : PyVal → Bool
  | .tuple xs => xs.length == 2
  | _ => false

/-- `isinstance(v, list)`. -/
def isList : PyVal → Bool
  | .list _ => true
  | _ => false

end PyVal

/-- The fields the constructor stores when every check passes
(`self.layers`, `self.timesteps`, `self.groups`, `self.prob_dict`; the
remaining attributes are initialized to `None` / `0` and play no role in
the construction-time claims). -/
structure PyModel where
  layers : ℤ
  timesteps : ℤ
  groups : List PyVal
  prob_dict : List (PyVal × PyVal)

/-- `dmpsbm.__init__` (dmpsbm.py lines 11-24): the four validation checks in
source order, each raising `ValueError` with the source's message; on success
the parameters are stored. -/
def dmpsbm_init (layers timesteps groups prob_dict : PyVal) :
    Except String PyModel :=
  match layers with
  | .int L =>
    if L ≤ 0 then .error "The number of layers must be a positive integer"
    else
      match timesteps with
      | .int T =>
        if T ≤ 0 then .error "The number of timesteps must be a positive integer"
        else
          match groups with
          | .list gs =>
            if gs.length = 0 ∨ ¬ gs.all PyVal.isInt then
              .error "The groups must be a non-empty list of integers"
            else
              match prob_dict with
              | .dict kvs =>
                if kvs.all (fun kv => kv.1.isTuple2 && kv.2.isList) then
                  .ok ⟨L, T, gs, kvs⟩
                else
                  .error "The probability dictionary must be a dictionary with keys as tuples and values as lists"
              | _ => .error "The probability dictionary must be a dictionary with keys as tuples and values as lists"
          | _ => .error "The groups must be a non-empty list of integers"
      | _ => .error "The number of timesteps must be a positive integer"
  | _ => .error "The number of layers must be a positive integer"

/-- A dense matrix as a list of rows (a numpy 2-D array; entries are exact
rationals in place of floats). -/
abbrev Mat := List (List ℚ)

/-- `np.concatenate(ms, axis=0)`: stack the blocks vertically. -/
def concatRows (ms : List Mat) : Mat := ms.flatten

/-- `np.concatenate(ms, axis=1)`: join the blocks side by side
(rows of equal count are appended pairwise). -/
def concatCols : List Mat → Mat
  | [] => []
  | [m] => m
  | m :: ms => List.zipWith (· ++ ·) m (concatCols ms)

/-- Dot product of two rows (equal length in every use). -/
def dotProd (xs ys : List ℚ) : ℚ := (List.zipWith (· * ·) xs ys).sum

/-- Transpose of a rectangular matrix: column `j` collects entry `j` of
every row. -/
def transposeM (A : Mat) : Mat :=
  (List.range (A.headD []).length).map (fun j => A.map (fun row => row.getD j 0))

/-- Matrix product `A @ B`. -/
def matMul (A B : Mat) : Mat :=
  A.map (fun row => (transposeM B).map (fun col => dotProd row col))

/-- The d×d identity matrix. -/
def idMat (d : ℕ) : Mat :=
  (List.range d).map (fun i => (List.range d).map (fun j => if i = j then (1 : ℚ) else 0))

/-- `R` is an orthogonal d×d matrix: square of size d with `Rᵀ · R = I`. -/
def IsOrtho (d : ℕ) (R : Mat) : Prop :=
  R.length = d ∧ (∀ row ∈ R, row.length = d) ∧ matMul (transposeM R) R = idMat d

instance (d : ℕ) (R : Mat) : Decidable (IsOrtho d R) := by
  unfold IsOrtho; infer_instance

/-- `sum(sum((X - Y)**2))`: total of the squared entrywise differences
(the two arrays have identical shape at every call site). -/
def sumsqDiff (X Y : Mat) : ℚ :=
  (List.zipWith (fun rx ry => (List.zipWith (fun a b => (a - b) ^ 2) rx ry).sum) X Y).sum

/-- Mean of column `c` of `rows` (`np.mean(rows[:, c])`). -/
def meanCol (rows : Mat) (c : ℕ) : ℚ :=
  (rows.map (fun r => r.getD c 0)).sum / rows.length

/-- Population variance of column `c` of `rows` (`np.var(rows[:, c])`). -/
def varCol (rows : Mat) (c : ℕ) : ℚ :=
  (rows.map (fun r => (r.getD c 0 - meanCol rows c) ^ 2)).sum / rows.length

/-- `sum(np.var(rows, axis=0))`: the per-column variances, summed over the
row width. -/
def sumVar (rows : Mat) : ℚ :=
  ((List.range (rows.headD []).length).map (varCol rows)).sum

/-- The `type=` argument of `helpers.get_embedding`. -/
inductive EmbSide where
  | left
  | right

/-- The `dmpsbm` object after a valid construction, as the pipeline methods
see it: `layers`/`timesteps` positive counts, `groups` the community sizes,
`prob_dict` a total map from `(layer, timestep)` to a block-probability
matrix (the claims under verification presuppose an entry for every pair, so
the `KeyError` path is not modelled).  Fields that Python initializes to
`None` are `Option`s. -/
structure ModelState where
  layers : ℕ
  timesteps : ℕ
  groups : List ℕ
  prob_dict : ℕ × ℕ → Mat
  A : Option Mat
  left_embedding : Option Mat
  right_embedding : Option Mat
  left_centroids : Option (List Mat)
  right_centroids : Option (List Mat)
  left_embedding_theo : Option Mat
  right_embedding_theo : Option Mat
  rotation_left : Option Mat
  rotation_right : Option Mat
  error : ℚ

/-- `dmpsbm.sample` (lines 38-52): for each layer, the per-timestep blocks
drawn by `gen` (= `generate_adjacency_matrix`) are concatenated horizontally;
the per-layer strips are concatenated vertically into `A`; the left and right
embeddings of `A` are computed by `emb` (= `get_embedding`) and stored. -/
def sample (gen : List ℕ → Mat → Mat) (emb : Mat → EmbSide → Mat)
    (s : ModelState) : ModelState :=
  let listLongs := (List.range s.layers).map (fun i =>
    concatCols ((List.range s.timesteps).map (fun j => gen s.groups (s.prob_dict (i, j)))))
  let A := concatRows listLongs
  { s with
    A := some A
    left_embedding := some (emb A .left)
    right_embedding := some (emb A .right) }

/-- Modelled from the spec: `helpers.generate_group_labels` is imported from
the repository's `helpers` module, which is not in `src/`.  Per §4.3/§6 of the
spec it is "a group-labeling primitive taking community sizes and returning a
per-node community label sequence" where "community k occupies a contiguous
run of `groups[k]` node indices": label `k0 + k` is repeated `gs[k]` times, in
declaration order, starting from label `k0 = 0`. -/
def generate_group_labels_from (gs : List ℕ) (k0 : ℕ) : List ℕ :=
  match gs with
  | [] => []
  | g :: rest => List.replicate g k0 ++ generate_group_labels_from rest (k0 + 1)

/-- Modelled from the spec: the label sequence for the community sizes
`gs`, starting at label 0. -/
def generate_group_labels (gs : List ℕ) : List ℕ :=
  generate_group_labels_from gs 0

/-- Iteration over a Python `set` of the labels.  CPython iterates a set of
the small non-negative contiguous integers produced by
`generate_group_labels` in ascending order (each small `int` hashes to
itself), so `set(labels)` is modelled as the sorted list of distinct
labels. -/
def pySetAsc (xs : List ℕ) : List ℕ := xs.toFinset.sort (· ≤ ·)

/-- `rows[mask == label]` for the boolean mask `labels == label`: the rows
whose positionally corresponding label equals `label`. -/
def maskRows (labels : List ℕ) (rows : Mat) (label : ℕ) : Mat :=
  (labels.zip rows).filterMap (fun p => if p.1 = label then some p.2 else none)

/-- Python slice `rows[start : start + len]`. -/
def sliceRows (rows : Mat) (start len : ℕ) : Mat := (rows.drop start).take len

/-- The centroid loop shared by the two halves of `dmpsbm.get_centroids`
(lines 118-139): for each of the `n` slices of `sum gs` rows of `emb`, and
for each label in `set(generate_group_labels(gs))`, the rows of the slice
carrying that label are selected and the means of their first four
coordinates recorded. -/
def centroidsList (emb : Mat) (gs : List ℕ) (n : ℕ) : List Mat :=
  let labels := generate_group_labels gs
  (List.range n).map (fun t =>
    (pySetAsc labels).map (fun label =>
      let community := maskRows labels (sliceRows emb (gs.sum * t) gs.sum) label
      [meanCol community 0, meanCol community 1, meanCol community 2, meanCol community 3]))

/-- `dmpsbm.get_centroids` (lines 118-139): the centroid loop over the
`layers` slices of `left_embedding` and, symmetrically, over the `timesteps`
slices of `right_embedding`.  Slicing a `None` embedding raises. -/
def get_centroids (s : ModelState) : Except String ModelState :=
  match s.left_embedding, s.right_embedding with
  | some le, some re =>
    .ok { s with
      left_centroids := some (centroidsList le s.groups s.layers)
      right_centroids := some (centroidsList re s.groups s.timesteps) }
  | _, _ => .error "TypeError: embedding is None"

/-- `dmpsbm.get_rotation` (lines 70-76): stack the left centroids, call
`orthogonal_procrustes(left_embedding_theo, stacked)` (the parameter `op`)
and store the resulting rotation; likewise on the right.
`np.concatenate(None)` / passing a `None` embedding raises.  (When only the
right-hand inputs are missing, Python has already assigned
`self.rotation_left` before raising; that partial write is not observable
through the `Except` result and is not modelled.) -/
def get_rotation (op : Mat → Mat → Mat) (s : ModelState) : Except String ModelState :=
  match s.left_centroids, s.left_embedding_theo with
  | some lc, some lt =>
    let left_stacked := concatRows lc
    let rotL := op lt left_stacked
    match s.right_centroids, s.right_embedding_theo with
    | some rc, some rt =>
      let right_stacked := concatRows rc
      .ok { s with rotation_left := some rotL, rotation_right := some (op rt right_stacked) }
    | _, _ => .error "TypeError: right centroids or theoretical embedding is None"
  | _, _ => .error "TypeError: left centroids or theoretical embedding is None"

/-- `dmpsbm.calculate_variance` (lines 94-115): per layer (then per
timestep), slice the embedding, split it into the per-community runs of
`groups`, and compute each community's summed per-dimension variance.  The
values are only plotted, never stored on the model, so the result is returned
as plot data and the state is untouched.  Slicing a `None` embedding
raises. -/
def calculate_variance (s : ModelState) :
    Except String (List (List ℚ) × List (List ℚ)) :=
  match s.left_embedding, s.right_embedding with
  | some le, some re =>
    let num_nodes := s.groups.sum
    let commVariances : Mat → List ℚ := fun slice =>
      (List.range s.groups.length).map (fun k =>
        sumVar (sliceRows slice ((s.groups.take k).sum) (s.groups.getD k 0)))
    .ok ((List.range s.layers).map (fun layer =>
            commVariances (sliceRows le (num_nodes * layer) num_nodes)),
         (List.range s.timesteps).map (fun time =>
            commVariances (sliceRows re (num_nodes * time) num_nodes)))
  | _, _ => .error "TypeError: embedding is None"

/-- `dmpsbm.calculate_error` (lines 87-91): `error` becomes the total squared
entrywise difference between `left_embedding_theo` and the stacked left
centroids plus the analogous right-hand total; `calculate_variance` is then
invoked (it can raise but stores nothing). -/
def calculate_error (s : ModelState) : Except String ModelState :=
  match s.left_centroids, s.right_centroids, s.left_embedding_theo, s.right_embedding_theo with
  | some lc, some rc, some lt, some rt =>
    let left_stacked := concatRows lc
    let right_stacked := concatRows rc
    let s₁ := { s with error := sumsqDiff lt left_stacked + sumsqDiff rt right_stacked }
    (calculate_variance s₁).map (fun _ => s₁)
  | _, _, _, _ => .error "TypeError: centroids or theoretical embedding is None"

/-- `dmpsbm.rotate` (lines 79-85): compute the rotations, replace each
theoretical embedding by its rotated image, then compute the error (the
`print` of the error has no effect on the state). -/
def rotate (op : Mat → Mat → Mat) (s : ModelState) : Except String ModelState :=
  match get_rotation op s with
  | .error e => .error e
  | .ok s₁ =>
    match s₁.left_embedding_theo, s₁.rotation_left, s₁.right_embedding_theo, s₁.rotation_right with
    | some lt, some rl, some rt, some rr =>
      calculate_error { s₁ with
        left_embedding_theo := some (matMul lt rl)
        right_embedding_theo := some (matMul rt rr) }
    | _, _, _, _ => .error "TypeError: theoretical embedding or rotation is None"

/-- `dmpsbm.get_centroids_theo` (lines 55-67): build the theoretical
probability supermatrix with the same concatenation pattern as `sample`,
embed it on both sides, and call `rotate`. -/
def get_centroids_theo (emb : Mat → EmbSide → Mat) (op : Mat → Mat → Mat)
    (s : ModelState) : Except String ModelState :=
  let listLongs := (List.range s.layers).map (fun i =>
    concatCols ((List.range s.timesteps).map (fun j => s.prob_dict (i, j))))
  let P := concatRows listLongs
  rotate op { s with
    left_embedding_theo := some (emb P .left)
    right_embedding_theo := some (emb P .right) }

/-- `v` is a Python `int` with positive value (what lines 13-18 demand of
`layers` and `timesteps`). -/
def isPosInt : PyVal → Bool
  | .int n => decide (0 < n)
  | _ => false

theorem isPosInt_int (n : ℤ) : isPosInt (.int n) = true ↔ 0 < n := by
  simp [isPosInt]

theorem isTuple2_iff (v : PyVal) :
    v.isTuple2 = true ↔ ∃ xs, v = .tuple xs ∧ xs.length = 2 := by
  cases v <;> simp [PyVal.isTuple2]

/-- C7: invalid construction inputs are rejected with the matching
descriptive `ValueError` message, and no object is produced (the result is
`Except.error`, never `Except.ok`): non-positive or non-integer `layers`;
then, for valid `layers`, non-positive or non-integer `timesteps`; then, for
valid counts, an empty `groups` list; and, for otherwise valid inputs, a
`prob_dict` containing a key that is not a 2-tuple. -/
theorem dmpsbm_init_rejects_invalid (lt ts g pd : PyVal) :
    (isPosInt lt = false →
      dmpsbm_init lt ts g pd = .error "The number of layers must be a positive integer")
    ∧ (isPosInt lt = true → isPosInt ts = false →
      dmpsbm_init lt ts g pd = .error "The number of timesteps must be a positive integer")
    ∧ (isPosInt lt = true → isPosInt ts = true →
      dmpsbm_init lt ts (.list []) pd = .error "The groups must be a non-empty list of integers")
    ∧ (∀ kvs : List (PyVal × PyVal), ∀ kv ∈ kvs,
      isPosInt lt = true → isPosInt ts = true →
      (∃ gs, g = .list gs ∧ gs ≠ [] ∧ gs.all PyVal.isInt = true) →
      kv.1.isTuple2 = false →
      dmpsbm_init lt ts g (.dict kvs) = .error "The probability dictionary must be a dictionary with keys as tuples and values as lists") := by
  refine ⟨?_, ?_, ?_, ?_⟩
  · intro hlt
    cases lt with
    | int L =>
      have hL : L ≤ 0 := by simp [isPosInt] at hlt; omega
      simp only [dmpsbm_init]
      rw [if_pos hL]
    | float q => rfl
    | str s => rfl
    | tuple xs => rfl
    | list xs => rfl
    | dict kvs => rfl
    | none => rfl
  · intro hlt hts
    cases lt with
    | int L =>
      have hL : ¬ L ≤ 0 := by simp [isPosInt] at hlt; omega
      cases ts with
      | int T =>
        have hT : T ≤ 0 := by simp [isPosInt] at hts; omega
        simp only [dmpsbm_init]
        rw [if_neg hL, if_pos hT]
      | float q => simp only [dmpsbm_init]; rw [if_neg hL]
      | str s => simp only [dmpsbm_init]; rw [if_neg hL]
      | tuple xs => simp only [dmpsbm_init]; rw [if_neg hL]
      | list xs => simp only [dmpsbm_init]; rw [if_neg hL]
      | dict kvs => simp only [dmpsbm_init]; rw [if_neg hL]
      | none => simp only [dmpsbm_init]; rw [if_neg hL]
    | float q => simp [isPosInt] at hlt
    | str s => simp [isPosInt] at hlt
    | tuple xs => simp [isPosInt] at hlt
    | list xs => simp [isPosInt] at hlt
    | dict kvs => simp [isPosInt] at hlt
    | none => simp [isPosInt] at hlt
  · intro hlt hts
    cases lt with
    | int L =>
      have hL : ¬ L ≤ 0 := by simp [isPosInt] at hlt; omega
      cases ts with
      | int T =>
        have hT : ¬ T ≤ 0 := by simp [isPosInt] at hts; omega
        simp only [dmpsbm_init]
        rw [if_neg hL, if_neg hT]
        simp
      | float q => simp [isPosInt] at hts
      | str s => simp [isPosInt] at hts
      | tuple xs => simp [isPosInt] at hts
      | list xs => simp [isPosInt] at hts
      | dict kvs => simp [isPosInt] at hts
      | none => simp [isPosInt] at hts
    | float q => simp [isPosInt] at hlt
    | str s => simp [isPosInt] at hlt
    | tuple xs => simp [isPosInt] at hlt
    | list xs => simp [isPosInt] at hlt
    | dict kvs => simp [isPosInt] at hlt
    | none => simp [isPosInt] at hlt
  · rintro kvs kv hmem hlt hts ⟨gs, rfl, hne, hint⟩ hbad
    cases lt with
    | int L =>
      have hL : ¬ L ≤ 0 := by simp [isPosInt] at hlt; omega
      cases ts with
      | int T =>
        have hT : ¬ T ≤ 0 := by simp [isPosInt] at hts; omega
        have hgs : ¬ (gs.length = 0 ∨ ¬ gs.all PyVal.isInt) := by
          simp [hint, hne]
        have hall : ¬ (kvs.all fun kv => kv.1.isTuple2 && kv.2.isList) = true := by
          intro hall
          rw [List.all_eq_true] at hall
          have := hall kv hmem
          rw [Bool.and_eq_true] at this
          rw [this.1] at hbad
          exact Bool.true_eq_false.mp hbad
        simp only [dmpsbm_init]
        rw [if_neg hL, if_neg hT, if_neg hgs, if_neg hall]
      | float q => simp [isPosInt] at hts
      | str s => simp [isPosInt] at hts
      | tuple xs => simp [isPosInt] at hts
      | list xs => simp [isPosInt] at hts
      | dict kvs2 => simp [isPosInt] at hts
      | none => simp [isPosInt] at hts
    | float q => simp [isPosInt] at hlt
    | str s => simp [isPosInt] at hlt
    | tuple xs => simp [isPosInt] at hlt
    | list xs => simp [isPosInt] at hlt
    | dict kvs2 => simp [isPosInt] at hlt
    | none => simp [isPosInt] at hlt

/-- Witness for C7: `layers=0`, a non-integer `timesteps`, `groups=[]`, and a
non-tuple `prob_dict` key are each rejected with the corresponding message at
concrete inputs. -/
theorem dmpsbm_init_rejects_invalid_witness :
    dmpsbm_init (.int 0) (.int 1) (.list [.int 1]) (.dict [])
      = .error "The number of layers must be a positive integer"
    ∧ dmpsbm_init (.int 1) (.str "two") (.list [.int 1]) (.dict [])
      = .error "The number of timesteps must be a positive integer"
    ∧ dmpsbm_init (.int 1) (.int 1) (.list []) (.dict [])
      = .error "The groups must be a non-empty list of integers"
    ∧ dmpsbm_init (.int 1) (.int 1) (.list [.int 1]) (.dict [(.int 7, .list [])])
      = .error "The probability dictionary must be a dictionary with keys as tuples and values as lists" :=
  ⟨(dmpsbm_init_rejects_invalid (.int 0) (.int 1) (.list [.int 1]) (.dict [])).1 (by decide),
   (dmpsbm_init_rejects_invalid (.int 1) (.str "two") (.list [.int 1]) (.dict [])).2.1
     (by decide) (by decide),
   (dmpsbm_init_rejects_invalid (.int 1) (.int 1) (.list [.int 1]) (.dict [])).2.2.1
     (by decide) (by decide),
   (dmpsbm_init_rejects_invalid (.int 1) (.int 1) (.list [.int 1])
       (.dict [(.int 7, .list [])])).2.2.2
     [(.int 7, .list [])] (.int 7, .list []) (by simp) (by decide) (by decide)
     ⟨[.int 1], rfl, by simp, by decide⟩ (by decide)⟩

/-- Counterexample to C2: `groups = [0, -3]` contains non-positive entries and
the `prob_dict` value `[]` is not a 2×2 matrix of probabilities, yet the
constructor succeeds (it returns an object instead of raising). -/
theorem dmpsbm_init_no_positivity_check :
    dmpsbm_init (.int 2) (.int 2) (.list [.int 0, .int (-3)])
        (.dict [(.tuple [.int 0, .int 0], .list [])])
      = .ok ⟨2, 2, [.int 0, .int (-3)], [(.tuple [.int 0, .int 0], .list [])]⟩ := by
  rfl

/-- C2 as amended: the constructor checks only that `groups` is a non-empty
list of integers (no positivity check on the entries) and that `prob_dict` is
a dict whose keys are 2-tuples and whose values are lists (no shape or
`[0,1]`-range check on the matrices); every input of that form is accepted. -/
theorem dmpsbm_init_accepts_typed (L T : ℤ) (hL : 0 < L) (hT : 0 < T)
    (gs : List PyVal) (hne : gs ≠ []) (hint : gs.all PyVal.isInt = true)
    (kvs : List (PyVal × PyVal))
    (hkv : ∀ kv ∈ kvs, kv.1.isTuple2 = true ∧ kv.2.isList = true) :
    dmpsbm_init (.int L) (.int T) (.list gs) (.dict kvs) = .ok ⟨L, T, gs, kvs⟩ := by
  have hall : (kvs.all fun kv => kv.1.isTuple2 && kv.2.isList) = true := by
    rw [List.all_eq_true]
    intro kv hmem
    rw [Bool.and_eq_true]
    exact hkv kv hmem
  simp only [dmpsbm_init]
  rw [if_neg (by omega), if_neg (by omega),
    if_neg (by simp [hint, hne]), if_pos hall]

/-- Witness for the amended C2: a concrete construction with a negative group
size and a malformed probability matrix succeeds. -/
theorem dmpsbm_init_accepts_typed_witness :
    dmpsbm_init (.int 1) (.int 1) (.list [.int (-5)])
        (.dict [(.tuple [.int 0, .int 0], .list [.int 9])])
      = .ok ⟨1, 1, [.int (-5)], [(.tuple [.int 0, .int 0], .list [.int 9])]⟩ :=
  dmpsbm_init_accepts_typed 1 1 (by decide) (by decide) [.int (-5)] (by simp)
    (by decide) [(.tuple [.int 0, .int 0], .list [.int 9])]
    (by intro kv hmem; simp at hmem; rw [hmem]; exact ⟨by decide, by decide⟩)

/-- A concrete block sampler standing in for `generate_adjacency_matrix` in
counterexamples and witnesses. -/
def cexGen : List ℕ → Mat → Mat := fun _ _ => [[1]]

/-- A concrete embedder standing in for `get_embedding` in counterexamples
and witnesses. -/
def cexEmb : Mat → EmbSide → Mat := fun _ _ => [[1]]

/-- A freshly constructed 1-layer, 1-timestep model: every derived field is
still `None`. -/
def cexState : ModelState where
  layers := 1
  timesteps := 1
  groups := [1]
  prob_dict := fun _ => [[1]]
  A := Option.none
  left_embedding := Option.none
  right_embedding := Option.none
  left_centroids := Option.none
  right_centroids := Option.none
  left_embedding_theo := Option.none
  right_embedding_theo := Option.none
  rotation_left := Option.none
  rotation_right := Option.none
  error := 0

/-- Counterexample to C4: `sample` does not leave `left_embedding` unchanged —
on a fresh model it overwrites the `None` with the embedding of `A` (lines
49-52 assign `self.left_embedding` and `self.right_embedding` as well as
`self.A`). -/
theorem sample_changes_left_embedding :
    (sample cexGen cexEmb cexState).left_embedding ≠ cexState.left_embedding := by
  decide

/-- C4 as amended: `sample`'s side effects are exactly the assignments of
`A`, `left_embedding` and `right_embedding` (the latter two are the left and
right embeddings of the new `A`); every other field — the constructor
parameters, centroids, theoretical embeddings, rotations and `error` — is
unchanged. -/
theorem sample_frame (gen : List ℕ → Mat → Mat) (emb : Mat → EmbSide → Mat)
    (s : ModelState) :
    (∃ M, (sample gen emb s).A = some M
      ∧ (sample gen emb s).left_embedding = some (emb M .left)
      ∧ (sample gen emb s).right_embedding = some (emb M .right))
    ∧ (sample gen emb s).layers = s.layers
    ∧ (sample gen emb s).timesteps = s.timesteps
    ∧ (sample gen emb s).groups = s.groups
    ∧ (sample gen emb s).prob_dict = s.prob_dict
    ∧ (sample gen emb s).left_centroids = s.left_centroids
    ∧ (sample gen emb s).right_centroids = s.right_centroids
    ∧ (sample gen emb s).left_embedding_theo = s.left_embedding_theo
    ∧ (sample gen emb s).right_embedding_theo = s.right_embedding_theo
    ∧ (sample gen emb s).rotation_left = s.rotation_left
    ∧ (sample gen emb s).rotation_right = s.rotation_right
    ∧ (sample gen emb s).error = s.error := by
  refine ⟨⟨_, rfl, rfl, rfl⟩, ?_⟩
  simp [sample]

/-- A concrete Procrustes solver standing in for
`scipy.linalg.orthogonal_procrustes` in witnesses: it always returns the 2×2
identity, which is orthogonal. -/
def cexOpId : Mat → Mat → Mat := fun _ _ => idMat 2

/-- C8: with `left_centroids` and `right_centroids` still `None` (i.e.
`get_centroids` has not run), `get_rotation` fails — `np.concatenate(None)`
raises at the point of use — instead of producing rotations. -/
theorem get_rotation_before_centroids_fails (op : Mat → Mat → Mat)
    (s : ModelState) (hl : s.left_centroids = Option.none)
    (hr : s.right_centroids = Option.none) :
    ∃ e, get_rotation op s = .error e := by
  refine ⟨"TypeError: left centroids or theoretical embedding is None", ?_⟩
  simp [get_rotation, hl]

/-- Witness for C8: on a freshly constructed model `get_rotation` fails. -/
theorem get_rotation_before_centroids_fails_witness :
    ∃ e, get_rotation cexOpId cexState = .error e :=
  get_rotation_before_centroids_fails cexOpId cexState rfl rfl

/-- C9: `get_rotation` reads but never writes the centroids and theoretical
embeddings, so a second call succeeds on the state left by the first and
stores the same `rotation_left` and `rotation_right` (the solver `op` is a
function, hence deterministic on equal inputs). -/
theorem get_rotation_idempotent (op : Mat → Mat → Mat) (s s₁ : ModelState)
    (h : get_rotation op s = .ok s₁) :
    s₁.left_centroids = s.left_centroids
    ∧ s₁.right_centroids = s.right_centroids
    ∧ s₁.left_embedding_theo = s.left_embedding_theo
    ∧ s₁.right_embedding_theo = s.right_embedding_theo
    ∧ ∃ s₂, get_rotation op s₁ = .ok s₂
      ∧ s₂.rotation_left = s₁.rotation_left
      ∧ s₂.rotation_right = s₁.rotation_right := by
  unfold get_rotation at h
  cases hlc : s.left_centroids with
  | none => rw [hlc] at h; simp at h
  | some lc =>
    rw [hlc] at h
    cases hlt : s.left_embedding_theo with
    | none => rw [hlt] at h; simp at h
    | some lt =>
      rw [hlt] at h
      cases hrc : s.right_centroids with
      | none => rw [hrc] at h; simp at h
      | some rc =>
        rw [hrc] at h
        cases hrt : s.right_embedding_theo with
        | none => rw [hrt] at h; simp at h
        | some rt =>
          rw [hrt] at h
          simp only [Except.ok.injEq] at h
          subst h
          refine ⟨rfl, rfl, rfl, rfl, ?_⟩
          refine ⟨_, ?_, rfl, rfl⟩
          simp [get_rotation, hlc, hlt, hrc, hrt]

/-- A model state on which the alignment stage can run: embeddings,
centroids and theoretical embeddings are all populated (with d = 2 data). -/
def cexStateFull : ModelState :=
  { cexState with
    left_embedding := some [[1, 1]]
    right_embedding := some [[1, 1]]
    left_centroids := some [[[1, 1]]]
    right_centroids := some [[[1, 1]]]
    left_embedding_theo := some [[1, 1]]
    right_embedding_theo := some [[1, 1]] }

/-- The state `get_rotation` produces from `cexStateFull` with the
identity-returning solver. -/
def cexStateRot : ModelState :=
  { cexStateFull with rotation_left := some (idMat 2), rotation_right := some (idMat 2) }

/-- Witness for C9: a successful concrete `get_rotation` call repeated on
its own output stores the same rotations. -/
theorem get_rotation_idempotent_witness :
    get_rotation cexOpId cexStateFull = Except.ok cexStateRot
    ∧ (cexStateRot.left_centroids = cexStateFull.left_centroids
      ∧ cexStateRot.right_centroids = cexStateFull.right_centroids
      ∧ cexStateRot.left_embedding_theo = cexStateFull.left_embedding_theo
      ∧ cexStateRot.right_embedding_theo = cexStateFull.right_embedding_theo
      ∧ ∃ s₂, get_rotation cexOpId cexStateRot = .ok s₂
        ∧ s₂.rotation_left = cexStateRot.rotation_left
        ∧ s₂.rotation_right = cexStateRot.rotation_right) :=
  ⟨rfl, get_rotation_idempotent cexOpId cexStateFull cexStateRot rfl⟩

/-- C6: under the documented contract of `scipy.linalg.orthogonal_procrustes`
— it returns an orthogonal d×d matrix for any inputs — a successful
`get_rotation` stores orthogonal d×d matrices in `rotation_left` and
`rotation_right`. -/
theorem get_rotation_stores_orthogonal (op : Mat → Mat → Mat) (d : ℕ)
    (s : ModelState) (hop : ∀ A B, IsOrtho d (op A B))
    (lc rc : List Mat) (lt rt : Mat)
    (hlc : s.left_centroids = some lc) (hlt : s.left_embedding_theo = some lt)
    (hrc : s.right_centroids = some rc) (hrt : s.right_embedding_theo = some rt) :
    ∃ s₁, get_rotation op s = .ok s₁
      ∧ (∃ RL, s₁.rotation_left = some RL ∧ IsOrtho d RL)
      ∧ (∃ RR, s₁.rotation_right = some RR ∧ IsOrtho d RR) := by
  refine ⟨{ s with
      rotation_left := some (op lt (concatRows lc))
      rotation_right := some (op rt (concatRows rc)) }, ?_, ?_, ?_⟩
  · simp [get_rotation, hlc, hlt, hrc, hrt]
  · exact ⟨_, rfl, hop _ _⟩
  · exact ⟨_, rfl, hop _ _⟩

/-- Witness for C6: with a solver satisfying the orthogonality contract, a
concrete successful `get_rotation` stores orthogonal 2×2 rotations. -/
theorem get_rotation_stores_orthogonal_witness :
    ∃ s₁, get_rotation cexOpId cexStateFull = .ok s₁
      ∧ (∃ RL, s₁.rotation_left = some RL ∧ IsOrtho 2 RL)
      ∧ (∃ RR, s₁.rotation_right = some RR ∧ IsOrtho 2 RR) :=
  get_rotation_stores_orthogonal cexOpId 2 cexStateFull
    (fun _ _ => (⟨by decide, by decide,
      by simp [matMul, transposeM, idMat, dotProd, List.range_succ]⟩ : IsOrtho 2 (idMat 2)))
    [[[1, 1]]] [[[1, 1]]] [[1, 1]] [[1, 1]] rfl rfl rfl rfl

theorem rowSqDiff_nonneg : ∀ rx ry : List ℚ,
    0 ≤ (List.zipWith (fun a b => (a - b) ^ 2) rx ry).sum
  | [], _ => le_of_eq (by simp)
  | _ :: _, [] => le_of_eq (by simp)
  | a :: rx, b :: ry => by
    simp only [List.zipWith_cons_cons, List.sum_cons]
    exact add_nonneg (sq_nonneg _) (rowSqDiff_nonneg rx ry)

/-- A total of squared entrywise differences is never negative. -/
theorem sumsqDiff_nonneg : ∀ X Y : Mat, 0 ≤ sumsqDiff X Y
  | [], _ => le_of_eq (by simp [sumsqDiff])
  | _ :: _, [] => le_of_eq (by simp [sumsqDiff])
  | rx :: X, ry :: Y => by
    simp only [sumsqDiff, List.zipWith_cons_cons, List.sum_cons]
    exact add_nonneg (rowSqDiff_nonneg rx ry) (sumsqDiff_nonneg X Y)

/-- C10: a successful `calculate_error` changes only the `error` field — it
runs `calculate_variance`, but that stores nothing on the model — and `error`
becomes the two-sided total of squared differences against the stacked
centroids. -/
theorem calculate_error_only_sets_error (s : ModelState)
    (lc rc : List Mat) (lt rt le re : Mat)
    (hlc : s.left_centroids = some lc) (hrc : s.right_centroids = some rc)
    (hlt : s.left_embedding_theo = some lt) (hrt : s.right_embedding_theo = some rt)
    (hle : s.left_embedding = some le) (hre : s.right_embedding = some re) :
    ∃ s₁, calculate_error s = .ok s₁
      ∧ s₁.error = sumsqDiff lt (concatRows lc) + sumsqDiff rt (concatRows rc)
      ∧ s₁.layers = s.layers ∧ s₁.timesteps = s.timesteps
      ∧ s₁.groups = s.groups ∧ s₁.prob_dict = s.prob_dict
      ∧ s₁.A = s.A
      ∧ s₁.left_embedding = s.left_embedding ∧ s₁.right_embedding = s.right_embedding
      ∧ s₁.left_centroids = s.left_centroids ∧ s₁.right_centroids = s.right_centroids
      ∧ s₁.left_embedding_theo = s.left_embedding_theo
      ∧ s₁.right_embedding_theo = s.right_embedding_theo
      ∧ s₁.rotation_left = s.rotation_left ∧ s₁.rotation_right = s.rotation_right := by
  refine ⟨{ s with error := sumsqDiff lt (concatRows lc) + sumsqDiff rt (concatRows rc) },
    ?_, rfl, rfl, rfl, rfl, rfl, rfl, rfl, rfl, rfl, rfl, rfl, rfl, rfl, rfl⟩
  simp [calculate_error, calculate_variance, Except.map, hlc, hrc, hlt, hrt, hle, hre]

/-- Witness for C10: `calculate_error` on a concrete fully populated state
succeeds, leaves all other fields in place and stores the error total. -/
theorem calculate_error_only_sets_error_witness :
    ∃ s₁, calculate_error cexStateFull = .ok s₁
      ∧ s₁.error = sumsqDiff [[1, 1]] (concatRows [[[1, 1]]])
          + sumsqDiff [[1, 1]] (concatRows [[[1, 1]]])
      ∧ s₁.layers = cexStateFull.layers ∧ s₁.timesteps = cexStateFull.timesteps
      ∧ s₁.groups = cexStateFull.groups ∧ s₁.prob_dict = cexStateFull.prob_dict
      ∧ s₁.A = cexStateFull.A
      ∧ s₁.left_embedding = cexStateFull.left_embedding
      ∧ s₁.right_embedding = cexStateFull.right_embedding
      ∧ s₁.left_centroids = cexStateFull.left_centroids
      ∧ s₁.right_centroids = cexStateFull.right_centroids
      ∧ s₁.left_embedding_theo = cexStateFull.left_embedding_theo
      ∧ s₁.right_embedding_theo = cexStateFull.right_embedding_theo
      ∧ s₁.rotation_left = cexStateFull.rotation_left
      ∧ s₁.rotation_right = cexStateFull.rotation_right :=
  calculate_error_only_sets_error cexStateFull [[[1, 1]]] [[[1, 1]]]
    [[1, 1]] [[1, 1]] [[1, 1]] [[1, 1]] rfl rfl rfl rfl rfl rfl

/-- C1: on a state where the centroids and theoretical embeddings are
populated (i.e. `get_centroids` and `get_centroids_theo` have run — the
latter also requires the sampled embeddings for the variance plots),
`rotate` replaces each theoretical embedding by its pre-call value multiplied
by the freshly stored rotation, and sets `error` to the total of squared
entrywise differences between the rotated theoretical embeddings and the
row-stacked centroids; this error is non-negative. -/
theorem rotate_rotates_and_scores (op : Mat → Mat → Mat) (s : ModelState)
    (lc rc : List Mat) (lt rt le re : Mat)
    (hlc : s.left_centroids = some lc) (hrc : s.right_centroids = some rc)
    (hlt : s.left_embedding_theo = some lt) (hrt : s.right_embedding_theo = some rt)
    (hle : s.left_embedding = some le) (hre : s.right_embedding = some re) :
    ∃ s₁, rotate op s = .ok s₁
      ∧ s₁.rotation_left = some (op lt (concatRows lc))
      ∧ s₁.rotation_right = some (op rt (concatRows rc))
      ∧ s₁.left_embedding_theo = some (matMul lt (op lt (concatRows lc)))
      ∧ s₁.right_embedding_theo = some (matMul rt (op rt (concatRows rc)))
      ∧ s₁.error = sumsqDiff (matMul lt (op lt (concatRows lc))) (concatRows lc)
          + sumsqDiff (matMul rt (op rt (concatRows rc))) (concatRows rc)
      ∧ 0 ≤ s₁.error := by
  refine ⟨{ s with
      rotation_left := some (op lt (concatRows lc))
      rotation_right := some (op rt (concatRows rc))
      left_embedding_theo := some (matMul lt (op lt (concatRows lc)))
      right_embedding_theo := some (matMul rt (op rt (concatRows rc)))
      error := sumsqDiff (matMul lt (op lt (concatRows lc))) (concatRows lc)
          + sumsqDiff (matMul rt (op rt (concatRows rc))) (concatRows rc) },
    ?_, rfl, rfl, rfl, rfl, rfl,
    add_nonneg (sumsqDiff_nonneg _ _) (sumsqDiff_nonneg _ _)⟩
  simp [rotate, get_rotation, calculate_error, calculate_variance, Except.map,
    hlc, hrc, hlt, hrt, hle, hre]

/-- Witness for C1: `rotate` on a concrete fully populated state stores the
rotated theoretical embeddings and the (non-negative) error total. -/
theorem rotate_rotates_and_scores_witness :
    ∃ s₁, rotate cexOpId cexStateFull = .ok s₁
      ∧ s₁.rotation_left = some (cexOpId [[1, 1]] (concatRows [[[1, 1]]]))
      ∧ s₁.rotation_right = some (cexOpId [[1, 1]] (concatRows [[[1, 1]]]))
      ∧ s₁.left_embedding_theo
          = some (matMul [[1, 1]] (cexOpId [[1, 1]] (concatRows [[[1, 1]]])))
      ∧ s₁.right_embedding_theo
          = some (matMul [[1, 1]] (cexOpId [[1, 1]] (concatRows [[[1, 1]]])))
      ∧ s₁.error = sumsqDiff (matMul [[1, 1]] (cexOpId [[1, 1]] (concatRows [[[1, 1]]])))
            (concatRows [[[1, 1]]])
          + sumsqDiff (matMul [[1, 1]] (cexOpId [[1, 1]] (concatRows [[[1, 1]]])))
            (concatRows [[[1, 1]]])
      ∧ 0 ≤ s₁.error :=
  rotate_rotates_and_scores cexOpId cexStateFull [[[1, 1]]] [[[1, 1]]]
    [[1, 1]] [[1, 1]] [[1, 1]] [[1, 1]] rfl rfl rfl rfl rfl rfl

/-- Horizontal concatenation of non-empty lists of `n`-row blocks has `n`
rows. -/
theorem concatCols_length : ∀ (ms : List Mat) (n : ℕ), ms ≠ [] →
    (∀ m ∈ ms, m.length = n) → (concatCols ms).length = n
  | [], _, hne, _ => absurd rfl hne
  | [m], n, _, h => by simpa using h m (by simp)
  | m :: m2 :: ms, n, _, h => by
    have ih := concatCols_length (m2 :: ms) n (by simp)
      (fun x hx => h x (List.mem_cons_of_mem _ hx))
    simp only [concatCols]
    rw [List.length_zipWith, ih, h m (by simp)]
    exact Nat.min_self n

/-- Every row of a horizontal concatenation of `k` blocks of width `w` has
width `k·w`. -/
theorem concatCols_row_length : ∀ (ms : List Mat) (w : ℕ),
    (∀ m ∈ ms, ∀ r ∈ m, r.length = w) →
    ∀ row ∈ concatCols ms, row.length = ms.length * w
  | [], _, _, row, hrow => absurd hrow (by simp [concatCols])
  | [m], w, h, row, hrow => by
    rw [h m (by simp) row (by simpa [concatCols] using hrow)]
    simp
  | m :: m2 :: ms, w, h, row, hrow => by
    simp only [concatCols] at hrow
    obtain ⟨i, hi, hget⟩ := List.mem_iff_getElem.mp hrow
    rw [List.length_zipWith, lt_min_iff] at hi
    obtain ⟨hia, hib⟩ := hi
    rw [List.getElem_zipWith] at hget
    have h1 : m[i] ∈ m := List.getElem_mem hia
    have h2 : (concatCols (m2 :: ms))[i] ∈ concatCols (m2 :: ms) := List.getElem_mem hib
    have ih := concatCols_row_length (m2 :: ms) w
      (fun x hx => h x (List.mem_cons_of_mem _ hx)) _ h2
    rw [← hget, List.length_append, h m (by simp) _ h1, ih]
    simp only [List.length_cons]
    ring

/-- Every entry of a horizontal concatenation comes from one of the
blocks. -/
theorem concatCols_entries : ∀ (ms : List Mat) (P : ℚ → Prop),
    (∀ m ∈ ms, ∀ r ∈ m, ∀ x ∈ r, P x) →
    ∀ row ∈ concatCols ms, ∀ x ∈ row, P x
  | [], _, _, row, hrow => absurd hrow (by simp [concatCols])
  | [m], P, h, row, hrow => h m (by simp) row (by simpa [concatCols] using hrow)
  | m :: m2 :: ms, P, h, row, hrow => by
    simp only [concatCols] at hrow
    obtain ⟨i, hi, hget⟩ := List.mem_iff_getElem.mp hrow
    rw [List.length_zipWith, lt_min_iff] at hi
    obtain ⟨hia, hib⟩ := hi
    rw [List.getElem_zipWith] at hget
    intro x hx
    rw [← hget, List.mem_append] at hx
    rcases hx with hx | hx
    · exact h m (by simp) _ (List.getElem_mem hia) x hx
    · exact concatCols_entries (m2 :: ms) P
        (fun y hy => h y (List.mem_cons_of_mem _ hy)) _ (List.getElem_mem hib) x hx

/-- C3: when `prob_dict` has an entry for every `(layer, timestep)` pair and
the external block sampler returns an N×N 0/1 block for each pair
(N = sum(groups)), `sample` stores an `A` of shape
`(layers·N, timesteps·N)` with every entry in `{0, 1}` (each layer's blocks
concatenated horizontally across timesteps, the layers stacked
vertically). -/
theorem sample_shape (gen : List ℕ → Mat → Mat) (emb : Mat → EmbSide → Mat)
    (s : ModelState) (hT : 0 < s.timesteps)
    (hgen : ∀ i j, i < s.layers → j < s.timesteps →
      (gen s.groups (s.prob_dict (i, j))).length = s.groups.sum
      ∧ (∀ r ∈ gen s.groups (s.prob_dict (i, j)), r.length = s.groups.sum)
      ∧ (∀ r ∈ gen s.groups (s.prob_dict (i, j)), ∀ x ∈ r, x = 0 ∨ x = 1)) :
    ∃ A, (sample gen emb s).A = some A
      ∧ A.length = s.layers * s.groups.sum
      ∧ (∀ row ∈ A, row.length = s.timesteps * s.groups.sum)
      ∧ (∀ row ∈ A, ∀ x ∈ row, x = 0 ∨ x = 1) := by
  refine ⟨_, rfl, ?_, ?_, ?_⟩
  · rw [concatRows, List.length_flatten]
    have hmap : ((List.range s.layers).map (fun i =>
        concatCols ((List.range s.timesteps).map
          (fun j => gen s.groups (s.prob_dict (i, j)))))).map List.length
        = (List.range s.layers).map (fun _ => s.groups.sum) := by
      rw [List.map_map]
      apply List.map_congr_left
      intro i hi
      rw [List.mem_range] at hi
      apply concatCols_length
      · intro hnil
        have hlen := congrArg List.length hnil
        rw [List.length_map, List.length_range] at hlen
        simp at hlen
        omega
      · intro m hm
        rw [List.mem_map] at hm
        obtain ⟨j, hj, rfl⟩ := hm
        rw [List.mem_range] at hj
        exact (hgen i j hi hj).1
    rw [hmap]
    simp [List.map_const', mul_comm]
  · intro row hrow
    rw [concatRows, List.mem_flatten] at hrow
    obtain ⟨strip, hstrip, hrow⟩ := hrow
    rw [List.mem_map] at hstrip
    obtain ⟨i, hi, rfl⟩ := hstrip
    rw [List.mem_range] at hi
    have := concatCols_row_length
      ((List.range s.timesteps).map (fun j => gen s.groups (s.prob_dict (i, j))))
      s.groups.sum ?_ row hrow
    · simpa using this
    · intro m hm
      rw [List.mem_map] at hm
      obtain ⟨j, hj, rfl⟩ := hm
      rw [List.mem_range] at hj
      exact (hgen i j hi hj).2.1
  · intro row hrow
    rw [concatRows, List.mem_flatten] at hrow
    obtain ⟨strip, hstrip, hrow⟩ := hrow
    rw [List.mem_map] at hstrip
    obtain ⟨i, hi, rfl⟩ := hstrip
    rw [List.mem_range] at hi
    refine concatCols_entries
      ((List.range s.timesteps).map (fun j => gen s.groups (s.prob_dict (i, j))))
      (fun x => x = 0 ∨ x = 1) ?_ row hrow
    intro m hm
    rw [List.mem_map] at hm
    obtain ⟨j, hj, rfl⟩ := hm
    rw [List.mem_range] at hj
    exact (hgen i j hi hj).2.2

/-- Witness for C3: on the concrete fresh model, the 1×1 all-ones block
sampler yields `A = [[1]]` of shape (1·1, 1·1) with entries in `{0, 1}`. -/
theorem sample_shape_witness :
    ∃ A, (sample cexGen cexEmb cexState).A = some A
      ∧ A.length = cexState.layers * cexState.groups.sum
      ∧ (∀ row ∈ A, row.length = cexState.timesteps * cexState.groups.sum)
      ∧ (∀ row ∈ A, ∀ x ∈ row, x = 0 ∨ x = 1) :=
  sample_shape cexGen cexEmb cexState (by decide)
    (fun _ _ _ _ => ⟨rfl, by simp [cexGen, cexState], by simp [cexGen, cexState]⟩)

theorem zip_append_split {α β : Type} (l1 l2 : List α) (rows : List β) :
    List.zip (l1 ++ l2) rows
      = List.zip l1 (rows.take l1.length) ++ List.zip l2 (rows.drop l1.length) := by
  induction l1 generalizing rows with
  | nil => simp
  | cons a l1 ih =>
    cases rows with
    | nil => simp [List.zip_nil_right]
    | cons r rows => simp [List.zip_cons_cons, ih]

/-- Mask selection splits along a split of the label sequence. -/
theorem maskRows_append (l1 l2 : List ℕ) (rows : Mat) (j : ℕ) :
    maskRows (l1 ++ l2) rows j
      = maskRows l1 (rows.take l1.length) j ++ maskRows l2 (rows.drop l1.length) j := by
  unfold maskRows
  rw [zip_append_split, List.filterMap_append]

/-- Selecting the label a block of identical labels carries returns the
corresponding rows. -/
theorem maskRows_replicate_self (g : ℕ) (a : ℕ) (rws : Mat) :
    maskRows (List.replicate g a) rws a = rws.take g := by
  induction g generalizing rws with
  | zero => simp [maskRows]
  | succ g ih =>
    cases rws with
    | nil => simp [maskRows, List.zip_nil_right]
    | cons r rws =>
      simp only [List.replicate_succ, maskRows, List.zip_cons_cons, List.filterMap_cons,
        if_pos rfl, List.take_succ_cons]
      rw [← maskRows, ih]
      simp

/-- Selecting a label a block of identical labels does not carry returns
nothing. -/
theorem maskRows_replicate_ne (g a j : ℕ) (rws : Mat) (h : j ≠ a) :
    maskRows (List.replicate g a) rws j = [] := by
  induction g generalizing rws with
  | zero => simp [maskRows]
  | succ g ih =>
    cases rws with
    | nil => simp [maskRows, List.zip_nil_right]
    | cons r rws =>
      simp only [List.replicate_succ, maskRows, List.zip_cons_cons, List.filterMap_cons]
      rw [if_neg (Ne.symm h), ← maskRows, ih]

/-- Labels produced from start value `k0` are at least `k0`. -/
theorem mem_generate_group_labels_from (gs : List ℕ) (k0 : ℕ) :
    ∀ l ∈ generate_group_labels_from gs k0, k0 ≤ l := by
  induction gs generalizing k0 with
  | nil => simp [generate_group_labels_from]
  | cons g gs ih =>
    intro l hl
    simp only [generate_group_labels_from, List.mem_append] at hl
    rcases hl with hl | hl
    · rw [List.eq_of_mem_replicate hl]
    · exact le_trans (Nat.le_succ k0) (ih (k0 + 1) l hl)

/-- Selecting a label smaller than every label present returns nothing. -/
theorem maskRows_eq_nil_of_ne (labels : List ℕ) (rows : Mat) (j : ℕ)
    (h : ∀ l ∈ labels, l ≠ j) : maskRows labels rows j = [] := by
  induction labels generalizing rows with
  | nil => simp [maskRows]
  | cons a labels ih =>
    cases rows with
    | nil => simp [maskRows, List.zip_nil_right]
    | cons r rows =>
      simp only [maskRows, List.zip_cons_cons, List.filterMap_cons]
      rw [if_neg (by simpa using h a (by simp)), ← maskRows, ih]
      intro l hl
      exact h l (List.mem_cons_of_mem _ hl)

/-- Core of C5: selecting community `k0 + k` from rows masked by the label
sequence generated from `gs` (starting at label `k0`) yields exactly the
contiguous run of `gs[k]` rows that starts after the first `k` communities. -/
theorem maskRows_generate_eq_segment :
    ∀ (gs : List ℕ) (k0 k : ℕ) (rows : Mat),
    maskRows (generate_group_labels_from gs k0) rows (k0 + k)
      = (rows.drop ((gs.take k).sum)).take (gs.getD k 0)
  | [], k0, k, rows => by simp [generate_group_labels_from, maskRows]
  | g :: gs, k0, k, rows => by
    rw [generate_group_labels_from, maskRows_append, List.length_replicate]
    cases k with
    | zero =>
      rw [Nat.add_zero, maskRows_replicate_self,
        maskRows_eq_nil_of_ne _ _ _
          (fun l hl => Nat.ne_of_gt (mem_generate_group_labels_from gs (k0 + 1) l hl)),
        List.append_nil, List.take_take]
      simp
    | succ k =>
      rw [maskRows_replicate_ne _ _ _ _ (by omega), List.nil_append]
      have : k0 + (k + 1) = (k0 + 1) + k := by omega
      rw [this, maskRows_generate_eq_segment gs (k0 + 1) k (rows.drop g)]
      rw [List.drop_drop]
      simp only [List.take_succ_cons, List.sum_cons, List.getD_cons_succ]

/-- With every community non-empty, the labels generated from start `k0` are
exactly `k0, …, k0 + len(gs) - 1`. -/
theorem toFinset_generate_group_labels_from (gs : List ℕ) (k0 : ℕ)
    (hpos : ∀ g ∈ gs, 0 < g) :
    (generate_group_labels_from gs k0).toFinset = Finset.Ico k0 (k0 + gs.length) := by
  induction gs generalizing k0 with
  | nil => simp [generate_group_labels_from]
  | cons g gs ih =>
    rw [generate_group_labels_from, List.toFinset_append,
      List.toFinset_replicate_of_ne_zero (Nat.pos_iff_ne_zero.mp (hpos g (by simp))),
      ih (k0 + 1) (fun x hx => hpos x (List.mem_cons_of_mem _ hx))]
    ext a
    simp only [Finset.mem_union, Finset.mem_singleton, Finset.mem_Ico, List.length_cons]
    omega

/-- With every community non-empty, iterating over the Python set of labels
visits `0, 1, …, len(groups) - 1` in declaration order. -/
theorem pySetAsc_generate_group_labels (gs : List ℕ) (hpos : ∀ g ∈ gs, 0 < g) :
    pySetAsc (generate_group_labels gs) = List.range gs.length := by
  rw [pySetAsc, generate_group_labels,
    toFinset_generate_group_labels_from gs 0 hpos]
  rw [Nat.zero_add, ← Finset.range_eq_Ico, Finset.sort_range]

/-- The contiguous run of rows belonging to community `k` inside slice `t`
of the embedding `emb`: within the `t`-th block of `sum gs` rows, the
`gs[k]` rows that follow the first `k` communities. -/
def communitySeg (emb : Mat) (gs : List ℕ) (t k : ℕ) : Mat :=
  sliceRows (sliceRows emb (gs.sum * t) gs.sum) ((gs.take k).sum) (gs.getD k 0)

/-- The centroid loop produces, per slice, one 4-vector per declared
community, and the `k`-th one is the vector of coordinatewise means of
community `k`'s contiguous run of rows. -/
theorem centroidsList_spec (emb : Mat) (gs : List ℕ) (n : ℕ)
    (hpos : ∀ g ∈ gs, 0 < g) :
    (centroidsList emb gs n).length = n
    ∧ (∀ inner ∈ centroidsList emb gs n,
        inner.length = gs.length ∧ ∀ c ∈ inner, c.length = 4)
    ∧ ∀ t < n, ∀ k < gs.length,
        ((centroidsList emb gs n).getD t []).getD k []
          = [meanCol (communitySeg emb gs t k) 0, meanCol (communitySeg emb gs t k) 1,
             meanCol (communitySeg emb gs t k) 2, meanCol (communitySeg emb gs t k) 3] := by
  have hlabels := pySetAsc_generate_group_labels gs hpos
  refine ⟨by simp [centroidsList], ?_, ?_⟩
  · intro inner hinner
    rw [centroidsList] at hinner
    simp only [List.mem_map] at hinner
    obtain ⟨t, _, rfl⟩ := hinner
    constructor
    · rw [hlabels, List.length_map, List.length_range]
    · intro c hc
      simp only [List.mem_map] at hc
      obtain ⟨label, _, rfl⟩ := hc
      rfl
  · intro t ht k hk
    have h1 : (centroidsList emb gs n).getD t []
        = (pySetAsc (generate_group_labels gs)).map (fun label =>
            let community := maskRows (generate_group_labels gs)
              (sliceRows emb (gs.sum * t) gs.sum) label
            [meanCol community 0, meanCol community 1,
             meanCol community 2, meanCol community 3]) := by
      rw [centroidsList, List.getD_eq_getElem _ _ (by simpa using ht),
        List.getElem_map, List.getElem_range]
    rw [h1, hlabels, List.getD_eq_getElem _ _ (by simpa using hk),
      List.getElem_map, List.getElem_range]
    have h2 : maskRows (generate_group_labels gs)
        (sliceRows emb (gs.sum * t) gs.sum) k = communitySeg emb gs t k := by
      have := maskRows_generate_eq_segment gs 0 k (sliceRows emb (gs.sum * t) gs.sum)
      rw [Nat.zero_add] at this
      rw [generate_group_labels, this]
      rfl
    rw [h2]

/-- C5: with both embeddings populated (width-4 rows, d = 4) and all
community sizes positive, `get_centroids` stores `left_centroids` as a
sequence of length `layers` of sequences of length `len(groups)` of
4-vectors, whose `k`-th element is the coordinatewise mean of the rows of
community `k` — the contiguous run of `groups[k]` row indices inside the
layer's slice — in the order the communities are declared; and
`right_centroids` is the analogous structure over `timesteps`. -/
theorem get_centroids_structure (s : ModelState) (le re : Mat)
    (hle : s.left_embedding = some le) (hre : s.right_embedding = some re)
    (hpos : ∀ g ∈ s.groups, 0 < g)
    (hw4l : ∀ r ∈ le, r.length = 4) (hw4r : ∀ r ∈ re, r.length = 4) :
    ∃ s₁, get_centroids s = .ok s₁
      ∧ (∃ lc, s₁.left_centroids = some lc
        ∧ lc.length = s.layers
        ∧ (∀ inner ∈ lc, inner.length = s.groups.length ∧ ∀ c ∈ inner, c.length = 4)
        ∧ ∀ t < s.layers, ∀ k < s.groups.length,
            (lc.getD t []).getD k []
              = [meanCol (communitySeg le s.groups t k) 0,
                 meanCol (communitySeg le s.groups t k) 1,
                 meanCol (communitySeg le s.groups t k) 2,
                 meanCol (communitySeg le s.groups t k) 3])
      ∧ (∃ rc, s₁.right_centroids = some rc
        ∧ rc.length = s.timesteps
        ∧ (∀ inner ∈ rc, inner.length = s.groups.length ∧ ∀ c ∈ inner, c.length = 4)
        ∧ ∀ t < s.timesteps, ∀ k < s.groups.length,
            (rc.getD t []).getD k []
              = [meanCol (communitySeg re s.groups t k) 0,
                 meanCol (communitySeg re s.groups t k) 1,
                 meanCol (communitySeg re s.groups t k) 2,
                 meanCol (communitySeg re s.groups t k) 3]) := by
  obtain ⟨hl1, hl2, hl3⟩ := centroidsList_spec le s.groups s.layers hpos
  obtain ⟨hr1, hr2, hr3⟩ := centroidsList_spec re s.groups s.timesteps hpos
  exact ⟨{ s with
      left_centroids := some (centroidsList le s.groups s.layers)
      right_centroids := some (centroidsList re s.groups s.timesteps) },
    by simp [get_centroids, hle, hre],
    ⟨_, rfl, hl1, hl2, hl3⟩, ⟨_, rfl, hr1, hr2, hr3⟩⟩

/-- A fresh model with two size-1 communities and populated width-4
embeddings. -/
def cexState4 : ModelState :=
  { cexState with
    groups := [1, 1]
    left_embedding := some [[1, 2, 3, 4], [5, 6, 7, 8]]
    right_embedding := some [[1, 2, 3, 4], [5, 6, 7, 8]] }

/-- Witness for C5: the centroid structure on a concrete two-community
model. -/
theorem get_centroids_structure_witness :
    ∃ s₁, get_centroids cexState4 = .ok s₁
      ∧ (∃ lc, s₁.left_centroids = some lc
        ∧ lc.length = cexState4.layers
        ∧ (∀ inner ∈ lc, inner.length = cexState4.groups.length
            ∧ ∀ c ∈ inner, c.length = 4)
        ∧ ∀ t < cexState4.layers, ∀ k < cexState4.groups.length,
            (lc.getD t []).getD k []
              = [meanCol (communitySeg [[1, 2, 3, 4], [5, 6, 7, 8]] cexState4.groups t k) 0,
                 meanCol (communitySeg [[1, 2, 3, 4], [5, 6, 7, 8]] cexState4.groups t k) 1,
                 meanCol (communitySeg [[1, 2, 3, 4], [5, 6, 7, 8]] cexState4.groups t k) 2,
                 meanCol (communitySeg [[1, 2, 3, 4], [5, 6, 7, 8]] cexState4.groups t k) 3])
      ∧ (∃ rc, s₁.right_centroids = some rc
        ∧ rc.length = cexState4.timesteps
        ∧ (∀ inner ∈ rc, inner.length = cexState4.groups.length
            ∧ ∀ c ∈ inner, c.length = 4)
        ∧ ∀ t < cexState4.timesteps, ∀ k < cexState4.groups.length,
            (rc.getD t []).getD k []
              = [meanCol (communitySeg [[1, 2, 3, 4], [5, 6, 7, 8]] cexState4.groups t k) 0,
                 meanCol (communitySeg [[1, 2, 3, 4], [5, 6, 7, 8]] cexState4.groups t k) 1,
                 meanCol (communitySeg [[1, 2, 3, 4], [5, 6, 7, 8]] cexState4.groups t k) 2,
                 meanCol (communitySeg [[1, 2, 3, 4], [5, 6, 7, 8]] cexState4.groups t k) 3]) :=
  get_centroids_structure cexState4 [[1, 2, 3, 4], [5, 6, 7, 8]]
    [[1, 2, 3, 4], [5, 6, 7, 8]] rfl rfl (by decide) (by decide) (by decide)
